import Mathlib

/-!
# Verification of the PyCIRCLean filecheck engine

A shallow embedding of `kittengroomer/helpers.py` (the `FileBase` record and
its safety-category operations) and `bin/filecheck.py` (the per-file
classification pipeline, the archive containment controller and the
orchestrator walk), together with proofs about the spec claims.

Python strings are modelled as `List Char` (a Python `str` is a sequence of
code points).  External collaborators (the `mimetypes` database, libmagic,
the OLE / OOXML / PDF / zip inspectors, the image codec, the 7z extractor)
are modelled as oracle parameters carrying the verdict the library would
return; the engine code that consumes those verdicts is translated
faithfully from the source.
-/

/-- Python strings as lists of code points. -/
abbrev Str := List Char

/-- Shorthand: coerce a Lean string literal to the `Str` model. -/
def cs (s : String) : Str := s.toList

/-- `a` is a prefix of `b` (Python `str.startswith`). -/
def startsW : Str → Str → Bool
  | [], _ => true
  | _ :: _, [] => false
  | a :: as, b :: bs => a = b && startsW as bs

/-- `a` is a suffix of `b` (Python `str.endswith`). -/
def endsW (suf s : Str) : Bool := startsW suf.reverse s.reverse

/-- `pat` occurs as a contiguous substring of `s` (Python `pat in s`). -/
def hasSub (pat : Str) : Str → Bool
  | [] => decide (pat = [])
  | c :: rest => startsW pat (c :: rest) || hasSub pat rest

/-- Python `str.lower`, restricted to the ASCII case mapping used here. -/
def toLowerStr (s : Str) : Str := s.map Char.toLower

/-- Python `str.split(c)`. -/
def splitOnChar (c : Char) : Str → List Str
  | [] => [[]]
  | x :: xs =>
      let r := splitOnChar c xs
      if x = c then [] :: r
      else
        match r with
        | [] => [[x]]
        | h :: t => (x :: h) :: t

/-- `os.path.split`: split a path at its last slash; the head keeps no
trailing slashes unless it consists only of slashes. -/
def pySplit (p : Str) : Str × Str :=
  let base := (p.reverse.takeWhile (fun c => c ≠ '/')).reverse
  let head := p.take (p.length - base.length)
  let headStripped := (head.reverse.dropWhile (fun c => c = '/')).reverse
  (if headStripped = [] then head else headStripped, base)

/-- `os.path.join` for two components. -/
def pyJoin (a b : Str) : Str :=
  match b with
  | '/' :: _ => b
  | _ =>
      if a = [] then b
      else if a.getLast? = some '/' then a ++ b
      else a ++ '/' :: b

/-- The extension part of `os.path.splitext(name).lower()`, `none` when
empty: leading dots of the basename never start an extension. -/
def splitExtLow (name : Str) : Option Str :=
  let lead := name.takeWhile (fun c => c = '.')
  let rest := name.drop lead.length
  if '.' ∈ rest then
    some (toLowerStr ('.' :: (rest.reverse.takeWhile (fun c => c ≠ '.')).reverse))
  else none

/-- Exceptions that can escape the engine (`FileBase._winoffice` and
`FileBase._libreoffice` reference a local that is unbound when the parser
raised, producing a `NameError`; a malformed mimetype string makes the
two-way unpack in `_split_subtypes` raise `ValueError`). -/
inductive PyError where
  | nameError
  | valueError
  | otherError
  deriving DecidableEq, Repr

/-- The three non-`normal` values of `_file_props['safety_category']`. -/
inductive SafetyCat where
  | dangerous
  | unknown
  | binary
  deriving DecidableEq, Repr

/-- The per-file state of `FileBase` (`helpers.py`) plus the fields added by
`filecheck.File.__init__`.  `extension` is the `self.extension` attribute,
`prop_extension` the `_file_props['extension']` entry (they can diverge:
`force_ext` updates only the property).  `errors` counts `add_error` calls;
the error objects themselves are opaque. -/
structure FileRec where
  src_path : Str
  dst_path : Str
  filename : Str
  extension : Option Str
  prop_extension : Option Str
  mimetype : Option Str
  main_type : Option Str
  sub_type : Option Str
  safety_category : Option SafetyCat
  description_string : List Str
  errors : Nat
  symlink : Option Str
  copied : Bool
  should_copy : Bool
  is_recursive : Bool
  tempdir_path : Str
  metadata_file_path : Option Str
  user_metadata : Option Str
  deriving DecidableEq, Repr

/-- Truthiness of an optional string (`None` and `''` are falsy). -/
def truthy : Option Str → Bool
  | none => false
  | some s => s ≠ []

/-- `FileBase.has_mimetype`: true when main and sub type are both truthy. -/
def hasMimetypeB (r : FileRec) : Bool := truthy r.main_type && truthy r.sub_type

/-- `FileBase.has_extension`: true when `self.extension` is not `None`. -/
def hasExtensionB (r : FileRec) : Bool := r.extension ≠ none

/-- `FileBase.is_dangerous`. -/
def isDangerousB (r : FileRec) : Bool := r.safety_category = some .dangerous

/-- `FileBase.is_binary`. -/
def isBinaryB (r : FileRec) : Bool := r.safety_category = some .binary

/-- `FileBase.is_symlink`: the `symlink` property is not `False`. -/
def isSymlinkB (r : FileRec) : Bool := r.symlink ≠ none

/-- `FileBase.add_description` (via `set_property('description_string', d)`):
append the string unless it is already present. -/
def addDescription (d : Str) (r : FileRec) : FileRec :=
  if d ∈ r.description_string then r
  else { r with description_string := r.description_string ++ [d] }

/-- `FileBase.add_error`: record one more error. -/
def addErr (r : FileRec) : FileRec := { r with errors := r.errors + 1 }

/-- `FileBase.make_dangerous`: on an already-dangerous file only the reason
is recorded; otherwise the category becomes `dangerous` and the destination
basename is wrapped as `DANGEROUS_<name>_DANGEROUS`. -/
def makeDangerous (reason : Str) (r : FileRec) : FileRec :=
  if isDangerousB r then addDescription reason r
  else
    let r := { r with safety_category := some .dangerous }
    let r := addDescription reason r
    let (path, filename) := pySplit r.dst_path
    { r with dst_path := pyJoin path (cs "DANGEROUS_" ++ filename ++ cs "_DANGEROUS") }

/-- `FileBase.make_unknown`: no-op on dangerous or binary files; otherwise
set `unknown` and prepend `UNKNOWN_` to the destination basename. -/
def makeUnknown (r : FileRec) : FileRec :=
  if isDangerousB r || isBinaryB r then r
  else
    let r := { r with safety_category := some .unknown }
    let (path, filename) := pySplit r.dst_path
    { r with dst_path := pyJoin path (cs "UNKNOWN_" ++ filename) }

/-- `FileBase.make_binary`: no-op on dangerous files only; otherwise set
`binary` and append `.bin` to the destination basename. -/
def makeBinary (r : FileRec) : FileRec :=
  if isDangerousB r then r
  else
    let r := { r with safety_category := some .binary }
    let (path, filename) := pySplit r.dst_path
    { r with dst_path := pyJoin path (filename ++ cs ".bin") }

/-- `FileBase._check_leading_dot`. -/
def checkLeadingDot (ext : Str) : Str :=
  match ext with
  | [] => []
  | c :: rest => if c = '.' then c :: rest else '.' :: c :: rest

/-- `FileBase.force_ext`: append `ext` to the destination path unless it
already ends with it, and update the `extension` property if it differs. -/
def forceExt (ext : Str) (r : FileRec) : FileRec :=
  let ext := checkLeadingDot ext
  let r := if endsW ext r.dst_path then r else { r with dst_path := r.dst_path ++ ext }
  if r.prop_extension = some ext then r else { r with prop_extension := some ext }

/-- `FileBase.create_metadata_file` over a filesystem modelled as the list
of existing paths.  The source checks for a pre-existing file at
`self.src_path + ext` (not at the destination sidecar path), then creates
the destination directory and returns `self.dst_path + ext`.  Returns the
updated record, the updated filesystem and `none` for Python `False`. -/
def createMetadataFile (fs : List Str) (ext : Str) (r : FileRec) :
    FileRec × List Str × Option Str :=
  let ext := checkLeadingDot ext
  if (r.src_path ++ ext) ∈ fs then
    (addErr r, fs, none)
  else
    let dstDir := (pySplit r.dst_path).1
    let fs := if dstDir ∈ fs then fs else dstDir :: fs
    let path := r.dst_path ++ ext
    ({ r with metadata_file_path := some path }, fs, some path)

/-- The right-to-left-override control character `U+202E`. -/
def rlo : Char := Char.ofNat 0x202E

namespace Config

/-- `Config.mimes_ooxml`. -/
def mimesOoxml : List Str := [cs "vnd.openxmlformats-officedocument."]

/-- `Config.mimes_office`. -/
def mimesOffice : List Str := [cs "msword", cs "vnd.ms-"]

/-- `Config.mimes_libreoffice`. -/
def mimesLibreoffice : List Str := [cs "vnd.oasis.opendocument"]

/-- `Config.mimes_rtf`. -/
def mimesRtf : List Str := [cs "rtf", cs "richtext"]

/-- `Config.mimes_pdf`. -/
def mimesPdf : List Str := [cs "pdf", cs "postscript"]

/-- `Config.mimes_xml`. -/
def mimesXml : List Str := [cs "xml"]

/-- `Config.mimes_ms`. -/
def mimesMs : List Str := [cs "dosexec"]

/-- `Config.mimes_compressed`. -/
def mimesCompressed : List Str :=
  [cs "zip", cs "rar", cs "bzip2", cs "lzip", cs "lzma", cs "lzop",
   cs "xz", cs "compress", cs "gzip", cs "tar"]

/-- `Config.mimes_data`. -/
def mimesData : List Str := [cs "octet-stream"]

/-- `Config.mimes_exif`. -/
def mimesExif : List Str := [cs "image/jpeg", cs "image/tiff"]

/-- `Config.mimes_png`. -/
def mimesPng : List Str := [cs "image/png"]

/-- `Config.mimes_metadata`. -/
def mimesMetadata : List Str := [cs "image/jpeg", cs "image/tiff", cs "image/png"]

/-- `Config.malicious_exts`. -/
def maliciousExts : List Str :=
  [cs ".exe", cs ".pif", cs ".application", cs ".gadget", cs ".msi", cs ".msp",
   cs ".com", cs ".scr", cs ".hta", cs ".cpl", cs ".msc", cs ".jar",
   cs ".bat", cs ".cmd", cs ".vb", cs ".vbs", cs ".vbe", cs ".js", cs ".jse",
   cs ".ws", cs ".wsf", cs ".wsc", cs ".wsh", cs ".ps1", cs ".ps1xml",
   cs ".ps2", cs ".ps2xml", cs ".psc1", cs ".psc2", cs ".msh", cs ".msh1",
   cs ".msh2", cs ".mshxml", cs ".msh1xml", cs ".msh2xml",
   cs ".scf", cs ".lnk", cs ".inf", cs ".reg", cs ".dll",
   cs ".docm", cs ".dotm", cs ".xlsm", cs ".xltm", cs ".xlam", cs ".pptm",
   cs ".potm", cs ".ppam", cs ".ppsm", cs ".sldm",
   cs ".asf", cs ".asx", cs ".au", cs ".htm", cs ".html", cs ".mht",
   cs ".vbs", cs ".wax", cs ".wm", cs ".wma", cs ".wmd", cs ".wmv",
   cs ".wmx", cs ".wmz", cs ".wvx"]

/-- `Config.aliases` as an association list in source order. -/
def aliases : List (Str × Str) :=
  [(cs "application/x-msdos-program", cs "application/x-dosexec"),
   (cs "application/x-dosexec", cs "application/x-msdos-program"),
   (cs "application/rtf", cs "text/rtf")]

/-- `Config.override_ext`. -/
def overrideExt : List (Str × Str) := [(cs ".gz", cs "application/gzip")]

end Config

/-- Dictionary lookup in an association list (first matching key wins). -/
def lookupPair (tbl : List (Str × Str)) (k : Str) : Option Str :=
  match tbl.find? (fun p => p.1 = k) with
  | some p => some p.2
  | none => none

/-- Oracle for the external `mimetypes` database: `guess_type` keyed by the
full source path, the keys of `types_map`, and `guess_all_extensions`. -/
structure MimeDB where
  guessType : Str → Option Str
  typesMapKeys : List Str
  guessAllExtensions : Str → List Str

/-- `FileBase._split_subtypes`: a string without `/` yields `(None, None)`;
a two-way unpack of more than two parts raises `ValueError`. -/
def splitSubtypes (m : Str) : Except PyError (Option Str × Option Str) :=
  if '/' ∈ m then
    match splitOnChar '/' m with
    | [a, b] => .ok (some a, some b)
    | _ => .error .valueError
  else .ok (none, none)

/-- `File.__init__` combined with the `FileBase.__init__` field setup: the
source path is the file's name, `dst_path` is precomputed by the caller,
the extension comes from `splitext`, and the mimetype is the libmagic
verdict (`inode/symlink` for symlinks; `none` models the
`UnicodeEncodeError` path, which records one error). -/
def mkFileRec (name : Str) (mime : Option Str) (link : Option Str) (dstPath : Str) :
    Except PyError FileRec :=
  let ext := splitExtLow name
  let base : FileRec :=
    { src_path := name
      dst_path := dstPath
      filename := name
      extension := ext
      prop_extension := ext
      mimetype := none
      main_type := none
      sub_type := none
      safety_category := none
      description_string := []
      errors := 0
      symlink := none
      copied := false
      should_copy := true
      is_recursive := false
      tempdir_path := dstPath ++ cs "_temp"
      metadata_file_path := none
      user_metadata := none }
  match link with
  | some target =>
      match splitSubtypes (cs "inode/symlink") with
      | .error e => .error e
      | .ok (mn, sb) =>
          .ok { base with
                  mimetype := some (cs "inode/symlink"), symlink := some target
                  main_type := mn, sub_type := sb }
  | none =>
      match mime with
      | none => .ok { base with errors := 1 }
      | some m =>
          match splitSubtypes m with
          | .error e => .error e
          | .ok (mn, sb) =>
              .ok { base with mimetype := some m, main_type := mn, sub_type := sb }

/-- `File._check_dangerous`: the three presence checks run in sequence. -/
def checkDangerous (r : FileRec) : FileRec :=
  let r := if !hasMimetypeB r then makeDangerous (cs "File has no mimetype") r else r
  let r := if !hasExtensionB r then makeDangerous (cs "File has no extension") r else r
  if (match r.extension with
      | some e => e ∈ Config.maliciousExts
      | none => False : Bool) then
    makeDangerous (cs "Extension identifies file as potentially dangerous") r
  else r

/-- `File._check_extension`: guess the expected mimetype from the extension
(override table first, then `mimetypes.guess_type` filtered through the
alias table); a recognized extension with a mismatching expectation is
dangerous. -/
def checkExtension (db : MimeDB) (r : FileRec) : FileRec :=
  let expected : Option Str :=
    match r.extension.bind (lookupPair Config.overrideExt) with
    | some m => some m
    | none =>
        let e0 := db.guessType r.src_path
        match e0.bind (lookupPair Config.aliases) with
        | some m2 => some m2
        | none => e0
  let isKnown : Bool :=
    match r.extension with
    | some e => e ∈ db.typesMapKeys
    | none => false
  if isKnown && decide (expected ≠ r.mimetype) then
    makeDangerous (cs "Mimetype does not match expected mimetype for this extension") r
  else r

/-- `File._check_mimetype`: the extensions conventionally associated with
the detected mimetype (through the alias table) must include the file's
extension whenever that set is non-empty. -/
def checkMimetype (db : MimeDB) (r : FileRec) : FileRec :=
  let mt : Str :=
    match r.mimetype.bind (lookupPair Config.aliases) with
    | some m => m
    | none => r.mimetype.getD []
  let expectedExts := db.guessAllExtensions mt
  if !expectedExts.isEmpty && hasExtensionB r
      && decide (r.extension.getD [] ∉ expectedExts) then
    makeDangerous (cs "Extension does not match expected extensions for this mimetype") r
  else r

/-- `File._check_filename`: a right-to-left-override character in the
filename marks the file dangerous (renaming the destination basename) and
is then stripped from the whole destination path; `str.replace` with an
empty replacement removes every occurrence. -/
def checkFilename (r : FileRec) : FileRec :=
  if rlo ∈ r.filename then
    let r := makeDangerous (cs "Filename contains dangerous character") r
    { r with dst_path := r.dst_path.filter (fun c => c ≠ rlo) }
  else r

/-- The outcome of `olefile.OleFileIO(..., raise_defects=DEFECT_INCORRECT)`
in the manual branch of `_winoffice`: parse issues flag, and whether one of
the well-known macro storage streams exists. -/
structure OleManual where
  issues : Bool
  macroStreams : Bool
  deriving DecidableEq, Repr

/-- Oracle verdict of the OLE collaborators (`olefile` / `oletools`) for
one file: `isOle` is `olefile.isOleFile`, `manual` is `none` when
`OleFileIO` raises, and the remaining fields are the `OleID` indicators
used by `_winoffice`. -/
structure OleV where
  isOle : Bool
  manual : Option OleManual
  encrypted : Bool
  macros : Bool
  streams : Bool
  objectPool : Bool
  flash : Bool
  deriving DecidableEq, Repr

/-- Oracle verdict of the `officedissector` OOXML collaborator; `none`
models a parse exception. -/
structure OoxmlV where
  macroEnabled : Bool
  macros : Nat
  controls : Nat
  objects : Nat
  packages : Nat
  deriving DecidableEq, Repr

/-- Oracle verdict of the PDFiD collaborator; counts of the features
`_pdf` inspects. -/
structure PdfV where
  encrypt : Nat
  js : Nat
  javascript : Nat
  aa : Nat
  openaction : Nat
  richmedia : Nat
  launch : Nat
  deriving DecidableEq, Repr

/-- All collaborator verdicts for one file: OLE, the zip listing used by
`_libreoffice` (`none` when `zipfile.ZipFile` raises), OOXML (`none` when
`officedissector` raises), PDF (`none` when `PDFiD` raises), and the
booleans for the image codec and metadata readers. -/
structure Verdicts where
  ole : OleV
  zipNames : Option (List Str)
  ooxml : Option OoxmlV
  pdf : Option PdfV
  imgOk : Bool
  exifOk : Bool
  pngOk : Bool
  deriving DecidableEq, Repr

/-- A benign verdict set for files whose handlers never consult one. -/
def vNone : Verdicts :=
  { ole := { isOle := true, manual := none, encrypted := false, macros := false,
             streams := false, objectPool := false, flash := false }
    zipNames := some []
    ooxml := some { macroEnabled := false, macros := 0, controls := 0, objects := 0, packages := 0 }
    pdf := some { encrypt := 0, js := 0, javascript := 0, aa := 0, openaction := 0,
                  richmedia := 0, launch := 0 }
    imgOk := true, exifOk := true, pngOk := true }

/-- `File._winoffice`.  In the manual branch a parse exception runs
`make_dangerous('Unparsable WinOffice file')` but does not return, so the
following access to the unbound local `ole` raises a `NameError` that
escapes the method (the record mutations are unobservable because the
exception aborts the whole run). -/
def winofficeH (v : OleV) (r : FileRec) : Except PyError FileRec :=
  if !v.isOle then
    match v.manual with
    | none => .error .nameError
    | some m =>
        let r :=
          if m.issues then makeDangerous (cs "Parsing issues with WinOffice file") r
          else if m.macroStreams then makeDangerous (cs "WinOffice file containing a macro") r
          else r
        .ok (addDescription (cs "WinOffice file") r)
  else
    let r := if v.encrypted then makeDangerous (cs "Encrypted WinOffice file") r else r
    let r := if v.macros || v.streams then
               makeDangerous (cs "WinOffice file containing a macro") r else r
    let r := if v.objectPool then
               addDescription (cs "WinOffice file containing an object pool") r else r
    let r := if v.flash then makeDangerous (cs "WinOffice file with embedded flash") r else r
    .ok (addDescription (cs "WinOffice file") r)

/-- `File._ooxml`: a parse exception marks the file dangerous and returns;
otherwise the four feature checks each run. -/
def ooxmlH (vx : Option OoxmlV) (r : FileRec) : FileRec :=
  match vx with
  | none => makeDangerous (cs "Invalid ooxml file") r
  | some o =>
      let r := if o.macroEnabled || decide (0 < o.macros) then
                 makeDangerous (cs "Ooxml file containing macro") r else r
      let r := if 0 < o.controls then makeDangerous (cs "Ooxml file with activex") r else r
      let r := if 0 < o.objects then
                 makeDangerous (cs "Ooxml file with embedded objects") r else r
      if 0 < o.packages then makeDangerous (cs "Ooxml file with embedded packages") r else r

/-- `File._libreoffice`.  When `zipfile.ZipFile` raises, the handler runs
`make_dangerous('Invalid libreoffice file')` but does not return, so the
loop over the unbound local `lodoc` raises a `NameError` that escapes. -/
def libreofficeH (zipNames : Option (List Str)) (r : FileRec) : Except PyError FileRec :=
  match zipNames with
  | none => .error .nameError
  | some names =>
      let r := names.foldl
        (fun acc fn =>
          let f := toLowerStr fn
          if startsW (cs "script") f || startsW (cs "basic") f
              || startsW (cs "object") f || endsW (cs ".bin") f then
            makeDangerous (cs "Libreoffice file containing executable code") acc
          else acc) r
      .ok (if isDangerousB r then r else addDescription (cs "Libreoffice file") r)

/-- `File._pdf`: PDFiD is not wrapped in a handler, so a parser exception
escapes; otherwise the five feature censuses each run. -/
def pdfH (vx : Option PdfV) (r : FileRec) : Except PyError FileRec :=
  match vx with
  | none => .error .otherError
  | some p =>
      let r := if 0 < p.encrypt then makeDangerous (cs "Encrypted pdf") r else r
      let r := if 0 < p.js || 0 < p.javascript then
                 makeDangerous (cs "Pdf with embedded javascript") r else r
      let r := if 0 < p.aa || 0 < p.openaction then
                 makeDangerous (cs "Pdf with openaction(s)") r else r
      let r := if 0 < p.richmedia then makeDangerous (cs "Pdf containing flash") r else r
      let r := if 0 < p.launch then makeDangerous (cs "Pdf with launch action(s)") r else r
      .ok (if isDangerousB r then r else addDescription (cs "Pdf file") r)

/-- `File._executables`. -/
def executablesH (r : FileRec) : FileRec := makeDangerous (cs "Executable file") r

/-- `File._archive`: describe, exclude from copying and mark for recursive
expansion. -/
def archiveH (r : FileRec) : FileRec :=
  let r := addDescription (cs "Archive") r
  { r with should_copy := false, is_recursive := true }

/-- `File._unknown_app`. -/
def unknownAppH (r : FileRec) : FileRec :=
  makeUnknown (addDescription (cs "Unknown application file") r)

/-- `File._binary_app`. -/
def binaryAppH (r : FileRec) : FileRec :=
  makeBinary (addDescription (cs "Unknown binary file") r)

/-- `File.text`: rich text and generic text are forced to `.txt`; an OOXML
subtype hiding under a text maintype is redirected into `_ooxml`. -/
def textH (v : Verdicts) (r : FileRec) : FileRec :=
  let sub := r.sub_type.getD []
  if Config.mimesRtf.any (fun mt => hasSub mt sub) then
    forceExt (cs ".txt") (addDescription (cs "Rich Text (rtf) file") r)
  else if Config.mimesOoxml.any (fun mt => hasSub mt sub) then
    ooxmlH v.ooxml (addDescription (cs "OOXML (openoffice) file") r)
  else
    forceExt (cs ".txt") (addDescription (cs "Plain text file") r)

/-- `File.inode`: symlinks and empty files are described and excluded from
copying. -/
def inodeH (r : FileRec) : FileRec :=
  let r :=
    if isSymlinkB r then
      addDescription (cs "File is a symlink to " ++ r.symlink.getD []) r
    else addDescription (cs "File is an inode (empty file)") r
  { r with should_copy := false }

/-- `File.unknown` (fallback for unexpected main types). -/
def unknownH (r : FileRec) : FileRec :=
  { addDescription (cs "Unknown mimetype") r with should_copy := false }

/-- `File.example`. -/
def exampleH (r : FileRec) : FileRec :=
  { addDescription (cs "Example file") r with should_copy := false }

/-- `File.multipart`. -/
def multipartH (r : FileRec) : FileRec :=
  { addDescription (cs "Multipart file - usually found in web apps") r with
      should_copy := false }

/-- `File.message`. -/
def messageH (r : FileRec) : FileRec :=
  makeDangerous (cs "Message file - should not be found on USB key") r

/-- `File.model`. -/
def modelH (r : FileRec) : FileRec :=
  makeDangerous (cs "Model file - should not be found on USB key") r

/-- `File._media_processing`, shared by `audio` and `video`. -/
def mediaProcessing (r : FileRec) : FileRec := addDescription (cs "Media file") r

/-- `File.audio`. -/
def audioH (r : FileRec) : FileRec := mediaProcessing (addDescription (cs "Audio file") r)

/-- `File.video`. -/
def videoH (r : FileRec) : FileRec := mediaProcessing (addDescription (cs "Video file") r)

/-- `File.has_metadata`. -/
def hasMetadataB (r : FileRec) : Bool :=
  match r.mimetype with
  | some m => m ∈ Config.mimesMetadata
  | none => false

/-- `File.make_tempdir` over the filesystem model: create the temp
directory if absent and return its path. -/
def makeTempdirF (fs : List Str) (r : FileRec) : Str × List Str :=
  (r.tempdir_path, if r.tempdir_path ∈ fs then fs else r.tempdir_path :: fs)

/-- `File.extract_metadata` with `_metadata_exif` / `_metadata_png`
abstracted to their oracle outcome: the sidecar is created first, then the
matching extractor either writes it (success: the `metadata` user property
is set and the sidecar path exists) or records errors, with the PNG path
additionally escalating to dangerous on failure. -/
def extractMetadata (v : Verdicts) (fs : List Str) (r : FileRec) : FileRec × List Str :=
  let (r, fs, res) := createMetadataFile fs (cs ".metadata.txt") r
  let addPath := fun (fs : List Str) =>
    match res with
    | some p => if p ∈ fs then fs else p :: fs
    | none => fs
  match r.mimetype with
  | some m =>
      if m ∈ Config.mimesExif then
        if v.exifOk then ({ r with user_metadata := some (cs "exif") }, addPath fs)
        else (addErr r, fs)
      else if m ∈ Config.mimesPng then
        if v.pngOk then ({ r with user_metadata := some (cs "png") }, addPath fs)
        else (makeDangerous (cs "exception processing metadata") (addErr r), fs)
      else (r, fs)
  | none => (r, fs)

/-- `File.image`: optional metadata extraction, then a decode-and-re-encode
pass through the image codec into the temp directory; a codec exception
(decompression bomb) records an error and escalates to dangerous. -/
def imageH (v : Verdicts) (fs : List Str) (r : FileRec) : FileRec × List Str :=
  let (r, fs) := if hasMetadataB r then extractMetadata v fs r else (r, fs)
  let (tempdir, fs) := makeTempdirF fs r
  let tempfile := pyJoin tempdir r.filename
  let r :=
    if v.imgOk then { r with src_path := tempfile }
    else makeDangerous (cs "Image file containing decompression bomb") (addErr r)
  ((if isDangerousB r then r else addDescription (cs "Image file") r), fs)

/-- The `subtypes_apps` dispatch table in its dictionary insertion order;
tags stand for the bound methods. -/
inductive AppMethod where
  | winoffice | ooxmlM | textM | libreoffice | pdfM | executables | archive | binaryApp
  deriving DecidableEq, Repr

/-- `File.app_subtype_methods` (built by `_make_method_dict` from
`subtypes_apps`). -/
def appSubtypeMethods : List (Str × AppMethod) :=
  [(cs "msword", .winoffice), (cs "vnd.ms-", .winoffice),
   (cs "vnd.openxmlformats-officedocument.", .ooxmlM),
   (cs "rtf", .textM), (cs "richtext", .textM),
   (cs "vnd.oasis.opendocument", .libreoffice),
   (cs "pdf", .pdfM), (cs "postscript", .pdfM),
   (cs "xml", .textM),
   (cs "dosexec", .executables),
   (cs "zip", .archive), (cs "rar", .archive), (cs "bzip2", .archive),
   (cs "lzip", .archive), (cs "lzma", .archive), (cs "lzop", .archive),
   (cs "xz", .archive), (cs "compress", .archive), (cs "gzip", .archive),
   (cs "tar", .archive),
   (cs "octet-stream", .binaryApp)]

/-- `File.application`: dispatch on the first table key occurring as a
substring of the sub-type; no match falls back to `_unknown_app`. -/
def applicationH (v : Verdicts) (fs : List Str) (r : FileRec) :
    Except PyError (FileRec × List Str) :=
  let sub := r.sub_type.getD []
  match appSubtypeMethods.find? (fun p => hasSub p.1 sub) with
  | some (_, .winoffice) =>
      match winofficeH v.ole r with
      | .error e => .error e
      | .ok r2 => .ok (r2, fs)
  | some (_, .ooxmlM) => .ok (ooxmlH v.ooxml r, fs)
  | some (_, .textM) => .ok (textH v r, fs)
  | some (_, .libreoffice) =>
      match libreofficeH v.zipNames r with
      | .error e => .error e
      | .ok r2 => .ok (r2, fs)
  | some (_, .pdfM) =>
      match pdfH v.pdf r with
      | .error e => .error e
      | .ok r2 => .ok (r2, fs)
  | some (_, .executables) => .ok (executablesH r, fs)
  | some (_, .archive) => .ok (archiveH r, fs)
  | some (_, .binaryApp) => .ok (binaryAppH r, fs)
  | none => .ok (unknownAppH r, fs)

/-- `File.check`: the four generic checks, then dispatch on the main type
through `mime_processing_options` (a missing or non-string key falls back
to `File.unknown`).  Returns the checked record and the filesystem (only
the image path touches it). -/
def fcheck (db : MimeDB) (v : Verdicts) (fs : List Str) (r0 : FileRec) :
    Except PyError (FileRec × List Str) :=
  let r := checkDangerous r0
  let r := checkFilename r
  let r := if hasExtensionB r then checkExtension db r else r
  let r := if hasMimetypeB r then checkMimetype db r else r
  if isDangerousB r then .ok (r, fs)
  else
    match r.main_type with
    | some m =>
        if m = cs "text" then .ok (textH v r, fs)
        else if m = cs "audio" then .ok (audioH r, fs)
        else if m = cs "image" then .ok (imageH v fs r)
        else if m = cs "video" then .ok (videoH r, fs)
        else if m = cs "application" then applicationH v fs r
        else if m = cs "example" then .ok (exampleH r, fs)
        else if m = cs "message" then .ok (messageH r, fs)
        else if m = cs "model" then .ok (modelH r, fs)
        else if m = cs "multipart" then .ok (multipartH r, fs)
        else if m = cs "inode" then .ok (inodeH r, fs)
        else .ok (unknownH r, fs)
    | none => .ok (unknownH r, fs)

/-- One source-tree node as the walk sees it: directories carry their
children in the (case-insensitively sorted) listing order that
`list_files_dirs` produces; files carry the data every collaborator would
report for them, the entries 7z would leave in the scratch directory
(`extracted`, possibly partial), and the extractor's exit status. -/
inductive Entry where
  | dir (name : Str) (children : List Entry)
  | file (name : Str) (mime : Option Str) (link : Option Str) (content : Str)
      (v : Verdicts) (extracted : List Entry) (exitOk : Bool)

/-- One audit-log line: `GroomerLogger.add_dir` writes the directory name,
`GroomerLogger.add_file` writes the file properties (source path, logged
filename, joined descriptions, safety category) with the tempdir depth
correction flag. -/
inductive LogLine where
  | dirLine (name : Str)
  | fileLine (src : Str) (filename : Str) (descriptions : List Str)
      (safety : Option SafetyCat) (inTempdir : Bool)
  deriving DecidableEq, Repr

/-- The process-wide orchestrator state: the recursion-depth counter and
its bound, the audit log, the copies performed (destination path and
bytes), the filesystem (existing paths), and — as observation-only
instrumentation for stating properties — the final record of every file
the walk processed, in completion order. -/
structure GState where
  depth : Nat
  maxDepth : Nat
  log : List LogLine
  copied : List (Str × Str)
  fs : List Str
  recs : List FileRec
  deriving DecidableEq, Repr

/-- `File.write_log`: outside archive recursion, a file whose temp
directory exists is logged with the tempdir depth correction. -/
def writeLog (st : GState) (r : FileRec) : GState :=
  let inT := !r.is_recursive && decide (r.tempdir_path ∈ st.fs)
  { st with log := st.log ++
      [LogLine.fileLine r.src_path r.filename r.description_string r.safety_category inT] }

/-- `FileBase.safe_copy`: create the destination directory if needed and
copy the source bytes to `dst_path`. -/
def safeCopy (st : GState) (r : FileRec) (content : Str) : GState :=
  let d := (pySplit r.dst_path).1
  let fs := if d ∈ st.fs then st.fs else d :: st.fs
  let fs := if r.dst_path ∈ fs then fs else r.dst_path :: fs
  { st with fs := fs, copied := st.copied ++ [(r.dst_path, content)] }

/-- `KittenGroomerBase.safe_rmtree`: drop the path if present. -/
def rmtree (fs : List Str) (p : Str) : List Str := fs.filter (fun q => q ≠ p)

/-- `KittenGroomerFileCheck._run_process`: `subprocess.check_call` returns
`True` on success; a `CalledProcessError` or `TimeoutExpired` makes the
wrapper return `None`.  `process_archive` discards this value. -/
def runProcess (exitOk : Bool) : Option Bool :=
  if exitOk then some true else none

/-- Results of a walk step: normal completion, a propagating Python
exception, or fuel exhaustion (an artifact of the fuel-indexed recursion,
never reached for adequate fuel). -/
inductive Outcome (α : Type) where
  | ok (a : α)
  | raise (e : PyError)
  | spin
  deriving DecidableEq, Repr

/-- `KittenGroomerFileCheck.process_archive`, parametric in the recursive
directory-processing entry point `recur`.  The counter is incremented; at
or above the bound the archive is marked dangerous (`'Archive bomb'`)
without being expanded or logged; below the bound the archive is extracted
(exit status discarded), logged, and its scratch directory is processed
under the archive's destination path and then deleted.  The decrement is
not in a `finally`, so a propagating exception skips it. -/
def processArchiveG (recur : Str → GState → List Entry → Outcome GState)
    (st : GState) (r : FileRec) (ex : List Entry) (exitOk : Bool) :
    Outcome (GState × FileRec) :=
  let st := { st with depth := st.depth + 1 }
  if st.maxDepth ≤ st.depth then
    .ok ({ st with depth := st.depth - 1 }, makeDangerous (cs "Archive bomb") r)
  else
    let (tempdir, fs) := makeTempdirF st.fs r
    let st := { st with fs := fs }
    let _ := runProcess exitOk
    let st := writeLog st r
    match recur r.dst_path st ex with
    | .ok st2 =>
        let st2 := { st2 with fs := rmtree st2.fs tempdir }
        .ok ({ st2 with depth := st2.depth - 1 }, r)
    | .raise e => .raise e
    | .spin => .spin

/-- The unconditional tail of `process_file`: delete the per-file temp
directory and append the final record to the instrumentation trace. -/
def finishFile (st : GState) (r : FileRec) : Outcome GState :=
  let st := { st with fs := rmtree st.fs r.tempdir_path }
  .ok { st with recs := st.recs ++ [r] }

/-- `KittenGroomerFileCheck.process_file` (together with the `File`
construction in `process_dir`): build the record with destination
`join(dstDir, name)`, run `File.check`, copy (marking the `copied`
property) and log when `should_copy`, recurse into archives, and finish
with the unconditional temp-directory cleanup. -/
def processFileG (db : MimeDB) (recur : Str → GState → List Entry → Outcome GState)
    (dstDir : Str) (st : GState) (name : Str) (mime : Option Str) (link : Option Str)
    (content : Str) (v : Verdicts) (ex : List Entry) (exitOk : Bool) : Outcome GState :=
  match mkFileRec name mime link (pyJoin dstDir name) with
  | .error e => .raise e
  | .ok r0 =>
      match fcheck db v st.fs r0 with
      | .error e => .raise e
      | .ok (r1, fs1) =>
          let st1 := { st with fs := fs1 }
          let r2 := if r1.should_copy then { r1 with copied := true } else r1
          let st2 := if r1.should_copy then writeLog (safeCopy st1 r1 content) r2 else st1
          if r2.is_recursive then
            match processArchiveG recur st2 r2 ex exitOk with
            | .ok (st3, r3) => finishFile st3 r3
            | .raise e => .raise e
            | .spin => .spin
          else finishFile st2 r2

/-- `KittenGroomerFileCheck.process_dir` over the flattened
`list_files_dirs` queue: directory entries are logged in place and their
contents processed with the same destination directory (the source
flattens nested files onto `join(dst_dir, basename)`); file entries go
through `process_file`.  Fuel-indexed to make the recursion structural. -/
def processList (db : MimeDB) : Nat → Str → GState → List Entry → Outcome GState
  | 0, _, _, _ => .spin
  | _ + 1, _, st, [] => .ok st
  | fuel + 1, dstDir, st, e :: rest =>
      match e with
      | .dir name children =>
          let st := { st with log := st.log ++ [LogLine.dirLine name] }
          match processList db fuel dstDir st children with
          | .ok st2 => processList db fuel dstDir st2 rest
          | .raise er => .raise er
          | .spin => .spin
      | .file name mime link content v ex exitOk =>
          match processFileG db (fun d s l => processList db fuel d s l)
              dstDir st name mime link content v ex exitOk with
          | .ok st2 => processList db fuel dstDir st2 rest
          | .raise er => .raise er
          | .spin => .spin

/-- `process_file` with the walk recursion instantiated at the given fuel. -/
def processFile (db : MimeDB) (fuel : Nat) (dstDir : Str) (st : GState) (name : Str)
    (mime : Option Str) (link : Option Str) (content : Str) (v : Verdicts)
    (ex : List Entry) (exitOk : Bool) : Outcome GState :=
  processFileG db (fun d s l => processList db fuel d s l) dstDir st name mime link
    content v ex exitOk

/-- `process_archive` with the walk recursion instantiated at the given
fuel. -/
def processArchive (db : MimeDB) (fuel : Nat) (st : GState) (r : FileRec)
    (ex : List Entry) (exitOk : Bool) : Outcome (GState × FileRec) :=
  processArchiveG (fun d s l => processList db fuel d s l) st r ex exitOk

/-- A fragment of the standard `mimetypes` database covering the concrete
scenarios: `.txt`, `.zip` and `.doc` with their conventional mimetypes. -/
def stdDb : MimeDB :=
  { guessType := fun p =>
      if endsW (cs ".txt") (toLowerStr p) then some (cs "text/plain")
      else if endsW (cs ".zip") (toLowerStr p) then some (cs "application/zip")
      else if endsW (cs ".doc") (toLowerStr p) then some (cs "application/msword")
      else none
    typesMapKeys := [cs ".txt", cs ".zip", cs ".doc"]
    guessAllExtensions := fun m =>
      if m = cs "text/plain" then [cs ".txt"]
      else if m = cs "application/zip" then [cs ".zip"]
      else if m = cs "application/msword" then [cs ".doc"]
      else [] }

/-- The initial orchestrator state with the default
`max_recursive_depth=2`. -/
def st0 : GState :=
  { depth := 0, maxDepth := 2, log := [], copied := [], fs := [], recs := [] }

/-- A harmless plain-text file. -/
def txtEntry : Entry :=
  .file (cs "c.txt") (some (cs "text/plain")) none (cs "hello") vNone [] true

/-- The inner zip of spec scenario B: it extracts to the text file. -/
def innerZip : Entry :=
  .file (cs "b.zip") (some (cs "application/zip")) none (cs "zz") vNone [txtEntry] true

/-- The outer zip of spec scenario B: it extracts to the inner zip. -/
def outerZip : Entry :=
  .file (cs "a.zip") (some (cs "application/zip")) none (cs "yy") vNone [innerZip] true

/-- The complete run of spec scenario B (zip containing a zip containing a
text file, `max_recursive_depth=2`). -/
def runScenB : Outcome GState := processList stdDb 19 (cs "dst") st0 [outerZip]

/-- Collaborator verdicts for a `.doc` file that is not a valid OLE
container and whose manual `OleFileIO` parse raises. -/
def badOleV : Verdicts :=
  { vNone with ole := { vNone.ole with isOle := false, manual := none } }

/-- A malformed legacy-office file. -/
def badDoc : Entry :=
  .file (cs "m.doc") (some (cs "application/msword")) none (cs "dd") badOleV [] true

/-- A walk over a malformed `.doc` followed by a harmless text file. -/
def runBadDoc : Outcome GState := processList stdDb 9 (cs "dst") st0 [badDoc, txtEntry]

/-- A symbolic link entry. -/
def slinkEntry : Entry :=
  .file (cs "s.link") none (some (cs "target")) (cs "") vNone [] true

/-- A walk over a single symbolic link. -/
def runSlink : Outcome GState := processList stdDb 9 (cs "dst") st0 [slinkEntry]

/-- The audit log of a completed walk. -/
def logOf : Outcome GState → Option (List LogLine)
  | .ok st => some st.log
  | _ => none

/-- The copies performed by a completed walk. -/
def copiedOf : Outcome GState → Option (List (Str × Str))
  | .ok st => some st.copied
  | _ => none

/-- Per-file summary (logged filename, safety category, descriptions) of
the records a completed walk processed. -/
def recsSummary : Outcome GState → Option (List (Str × Option SafetyCat × List Str))
  | .ok st => some (st.recs.map (fun r => (r.filename, r.safety_category, r.description_string)))
  | _ => none

/-- The recursion-depth counter of a completed walk. -/
def depthOf : Outcome GState → Option Nat
  | .ok st => some st.depth
  | _ => none

/-- A default record used as a fallback arm when destructuring `Except`
values of concrete computations. -/
def dummyRec : FileRec :=
  { src_path := [], dst_path := [], filename := [], extension := none,
    prop_extension := none, mimetype := none, main_type := none, sub_type := none,
    safety_category := none, description_string := [], errors := 0, symlink := none,
    copied := false, should_copy := true, is_recursive := false, tempdir_path := [],
    metadata_file_path := none, user_metadata := none }

theorem addDescription_safety (d : Str) (r : FileRec) :
    (addDescription d r).safety_category = r.safety_category := by
  unfold addDescription; split <;> rfl

theorem addDescription_mem_self (d : Str) (r : FileRec) :
    d ∈ (addDescription d r).description_string := by
  unfold addDescription; split
  · assumption
  · simp

theorem addDescription_mem_mono (x d : Str) (r : FileRec)
    (h : x ∈ r.description_string) : x ∈ (addDescription d r).description_string := by
  unfold addDescription; split
  · exact h
  · simp [h]

theorem makeDangerous_safety (d : Str) (r : FileRec) :
    (makeDangerous d r).safety_category = some .dangerous := by
  unfold makeDangerous
  split
  · rename_i h
    simp only [isDangerousB, decide_eq_true_eq] at h
    rw [addDescription_safety, h]
  · rw [addDescription_safety]

theorem makeDangerous_filename (d : Str) (r : FileRec) :
    (makeDangerous d r).filename = r.filename := by
  unfold makeDangerous addDescription
  dsimp only
  repeat' split
  all_goals rfl

theorem makeDangerous_mem_self (d : Str) (r : FileRec) :
    d ∈ (makeDangerous d r).description_string := by
  unfold makeDangerous
  split
  · exact addDescription_mem_self d r
  · exact addDescription_mem_self d _

theorem makeDangerous_mem_mono (x d : Str) (r : FileRec)
    (h : x ∈ r.description_string) : x ∈ (makeDangerous d r).description_string := by
  unfold makeDangerous
  split
  · exact addDescription_mem_mono x d r h
  · exact addDescription_mem_mono x d _ h

theorem writeLog_depth (st : GState) (r : FileRec) : (writeLog st r).depth = st.depth := by
  unfold writeLog; rfl

theorem safeCopy_depth (st : GState) (r : FileRec) (c : Str) :
    (safeCopy st r c).depth = st.depth := by
  unfold safeCopy; rfl

theorem finishFile_depth (st : GState) (r : FileRec) (st2 : GState)
    (heq : finishFile st r = .ok st2) : st2.depth = st.depth := by
  unfold finishFile at heq
  cases heq
  rfl

theorem processArchiveG_depth
    (recur : Str → GState → List Entry → Outcome GState)
    (hrec : ∀ d s l s2, recur d s l = .ok s2 → s2.depth = s.depth)
    (st : GState) (r : FileRec) (ex : List Entry) (b : Bool) (st2 : GState) (r2 : FileRec)
    (heq : processArchiveG recur st r ex b = .ok (st2, r2)) : st2.depth = st.depth := by
  unfold processArchiveG at heq
  dsimp only at heq
  split at heq
  · cases heq
    simp
  · split at heq
    · rename_i s3 hs3
      cases heq
      have h1 := hrec _ _ _ _ hs3
      dsimp only
      rw [h1, writeLog_depth]
      dsimp only
      omega
    · cases heq
    · cases heq

theorem processFileG_depth
    (db : MimeDB) (recur : Str → GState → List Entry → Outcome GState)
    (hrec : ∀ d s l s2, recur d s l = .ok s2 → s2.depth = s.depth)
    (dstDir : Str) (st : GState) (name : Str) (mime : Option Str) (link : Option Str)
    (content : Str) (v : Verdicts) (ex : List Entry) (b : Bool) (st2 : GState)
    (heq : processFileG db recur dstDir st name mime link content v ex b = .ok st2) :
    st2.depth = st.depth := by
  unfold processFileG at heq
  split at heq
  · cases heq
  · rename_i r0 hmk
    split at heq
    · cases heq
    · rename_i r1 fs1 hfc
      dsimp only at heq
      by_cases hc : r1.should_copy = true
      · simp only [if_pos hc] at heq
        by_cases hr : r1.is_recursive = true
        · simp only [if_pos hr] at heq
          split at heq
          · rename_i st3 r3 harch
            have h1 := processArchiveG_depth recur hrec _ _ _ _ _ _ harch
            have h2 := finishFile_depth _ _ _ heq
            rw [h2, h1, writeLog_depth, safeCopy_depth]
          · cases heq
          · cases heq
        · simp only [if_neg hr] at heq
          have h2 := finishFile_depth _ _ _ heq
          rw [h2, writeLog_depth, safeCopy_depth]
      · simp only [if_neg hc] at heq
        by_cases hr : r1.is_recursive = true
        · simp only [if_pos hr] at heq
          split at heq
          · rename_i st3 r3 harch
            have h1 := processArchiveG_depth recur hrec _ _ _ _ _ _ harch
            have h2 := finishFile_depth _ _ _ heq
            rw [h2, h1]
          · cases heq
          · cases heq
        · simp only [if_neg hr] at heq
          have h2 := finishFile_depth _ _ _ heq
          rw [h2]

theorem processList_depth (db : MimeDB) :
    ∀ (fuel : Nat) (dstDir : Str) (st : GState) (l : List Entry) (st2 : GState),
      processList db fuel dstDir st l = .ok st2 → st2.depth = st.depth := by
  intro fuel
  induction fuel with
  | zero =>
      intro dstDir st l st2 h
      cases l <;> cases h
  | succ n ih =>
      intro dstDir st l st2 h
      match l with
      | [] =>
          simp only [processList] at h
          cases h
          rfl
      | Entry.dir name children :: rest =>
          simp only [processList] at h
          split at h
          · rename_i s3 h3
            have hmid := ih _ _ _ _ h3
            have hrest := ih _ _ _ _ h
            rw [hrest, hmid]
          · cases h
          · cases h
      | Entry.file name mime link content v ex exitOk :: rest =>
          simp only [processList] at h
          split at h
          · rename_i s3 h3
            have hmid := processFileG_depth db _ (fun d s ll s2 hh => ih d s ll s2 hh)
              _ _ _ _ _ _ _ _ _ _ h3
            have hrest := ih _ _ _ _ h
            rw [hrest, hmid]
          · cases h
          · cases h

/-- The three category-changing operations of `FileBase`, as an alphabet of
events that may hit a record in any order. -/
inductive SafeOp where
  | danger (reason : Str)
  | toUnknown
  | toBinary

/-- Apply one category operation. -/
def applyOp : SafeOp → FileRec → FileRec
  | .danger reason, r => makeDangerous reason r
  | .toUnknown, r => makeUnknown r
  | .toBinary, r => makeBinary r

/-- Apply a sequence of category operations, oldest first. -/
def applyOps (ops : List SafeOp) (r : FileRec) : FileRec :=
  ops.foldl (fun acc op => applyOp op acc) r

/-- Position of a category in the order the operations actually respect:
normal < unknown < binary < dangerous. -/
def catRank : Option SafetyCat → Nat
  | none => 0
  | some .unknown => 1
  | some .binary => 2
  | some .dangerous => 3

theorem catRank_le_three (o : Option SafetyCat) : catRank o ≤ 3 := by
  cases o with
  | none => decide
  | some c => cases c <;> decide

theorem applyOp_rank (op : SafeOp) (r : FileRec) :
    catRank r.safety_category ≤ catRank (applyOp op r).safety_category := by
  cases op with
  | danger reason =>
      simp only [applyOp]
      rw [makeDangerous_safety]
      exact catRank_le_three _
  | toUnknown =>
      simp only [applyOp]
      unfold makeUnknown
      split
      · exact le_refl _
      · rename_i h
        simp only [isDangerousB, isBinaryB, Bool.or_eq_true, decide_eq_true_eq] at h
        push_neg at h
        dsimp only
        rcases hs : r.safety_category with _ | c
        · simp [catRank]
        · cases c <;> simp_all [catRank]
  | toBinary =>
      simp only [applyOp]
      unfold makeBinary
      split
      · exact le_refl _
      · rename_i h
        simp only [isDangerousB, decide_eq_true_eq] at h
        dsimp only
        rcases hs : r.safety_category with _ | c
        · simp [catRank]
        · cases c <;> simp_all [catRank]

theorem applyOps_rank (ops : List SafeOp) (r : FileRec) :
    catRank r.safety_category ≤ catRank (applyOps ops r).safety_category := by
  induction ops generalizing r with
  | nil => exact le_refl _
  | cons op rest ih =>
      calc catRank r.safety_category
          ≤ catRank (applyOp op r).safety_category := applyOp_rank op r
        _ ≤ catRank (applyOps rest (applyOp op r)).safety_category := ih _
        _ = catRank (applyOps (op :: rest) r).safety_category := by
              simp [applyOps, List.foldl_cons]

theorem rank_three_dangerous (o : Option SafetyCat) (h : 3 ≤ catRank o) :
    o = some .dangerous := by
  rcases o with _ | c
  · simp [catRank] at h
  · cases c
    · rfl
    · simp [catRank] at h
    · simp [catRank] at h

theorem checkDangerous_noMimetype (r : FileRec) (h : hasMimetypeB r = false) :
    (checkDangerous r).safety_category = some SafetyCat.dangerous ∧
    cs "File has no mimetype" ∈ (checkDangerous r).description_string := by
  unfold checkDangerous
  rw [h]
  simp only [Bool.not_false, if_true]
  constructor
  · split <;> (try split) <;> rw [makeDangerous_safety]
  · split <;> (try split) <;>
      first
        | exact makeDangerous_mem_self _ _
        | exact makeDangerous_mem_mono _ _ _ (makeDangerous_mem_self _ _)
        | exact makeDangerous_mem_mono _ _ _
            (makeDangerous_mem_mono _ _ _ (makeDangerous_mem_self _ _))

/-- C2, counterexample: starting from an unmarked record, `make_unknown`
followed by `make_binary` ends in category `binary` — `make_binary` checks
only for `dangerous` and overwrites `unknown`, so the claimed mutual
exclusion fails. -/
theorem claim_c2_counterexample :
    (makeUnknown dummyRec).safety_category = some SafetyCat.unknown ∧
    (makeBinary (makeUnknown dummyRec)).safety_category = some SafetyCat.binary := by
  decide

/-- C2, amended: over every sequence of `make_dangerous` / `make_unknown` /
`make_binary` calls the safety category is monotone in the order
normal < unknown < binary < dangerous; in particular it never regresses
from dangerous.  (`make_binary` does overwrite `unknown`; the converse is
impossible.) -/
theorem claim_c2 (ops : List SafeOp) (r : FileRec) :
    catRank r.safety_category ≤ catRank (applyOps ops r).safety_category ∧
    (r.safety_category = some SafetyCat.dangerous →
      (applyOps ops r).safety_category = some SafetyCat.dangerous) := by
  refine ⟨applyOps_rank ops r, fun hd => ?_⟩
  apply rank_three_dangerous
  have := applyOps_rank ops r
  rw [hd] at this
  exact this

theorem claim_c2_witness :
    catRank (makeDangerous (cs "x") dummyRec).safety_category ≤
      catRank (applyOps [SafeOp.toBinary]
        (makeDangerous (cs "x") dummyRec)).safety_category ∧
    (applyOps [SafeOp.toBinary]
        (makeDangerous (cs "x") dummyRec)).safety_category = some SafetyCat.dangerous :=
  ⟨(claim_c2 [SafeOp.toBinary] (makeDangerous (cs "x") dummyRec)).1,
   (claim_c2 [SafeOp.toBinary] (makeDangerous (cs "x") dummyRec)).2 (by decide)⟩

/-- C5: for an archive within the depth bound, the extractor's exit status
(success, non-zero exit or timeout) is discarded: the whole
`process_archive` outcome is independent of it, the archive record itself
comes back unchanged (never marked dangerous for extractor failure), and —
being the same outcome as on extractor success — whatever was extracted
into the scratch directory is recursively classified. -/
theorem claim_c5 (db : MimeDB) (fuel : Nat) (st : GState) (r : FileRec) (ex : List Entry)
    (b b2 : Bool) (hdepth : st.depth + 1 < st.maxDepth) :
    processArchive db fuel st r ex b = processArchive db fuel st r ex b2 ∧
    (∀ st2 r2, processArchive db fuel st r ex b = .ok (st2, r2) → r2 = r) := by
  constructor
  · rfl
  · intro st2 r2 h
    unfold processArchive processArchiveG at h
    dsimp only at h
    rw [if_neg (by omega)] at h
    split at h
    · cases h
      rfl
    · cases h
    · cases h

/-- The record `File(...)` builds for a well-formed zip archive. -/
def wrecArch : FileRec :=
  match mkFileRec (cs "w.zip") (some (cs "application/zip")) none (cs "d/w.zip") with
  | .ok r => r
  | .error _ => dummyRec

theorem claim_c5_witness :
    processArchive stdDb 9 st0 wrecArch [] true
      = processArchive stdDb 9 st0 wrecArch [] false :=
  (claim_c5 stdDb 9 st0 wrecArch [] true false (by decide)).1

/-- C6: a right-to-left-override character in the filename marks the file
dangerous, the resulting destination path contains no such character, and
the source filename used for logging is untouched. -/
theorem claim_c6 (r : FileRec) (h : rlo ∈ r.filename) :
    (checkFilename r).safety_category = some SafetyCat.dangerous ∧
    rlo ∉ (checkFilename r).dst_path ∧
    (checkFilename r).filename = r.filename := by
  unfold checkFilename
  rw [if_pos h]
  dsimp only
  refine ⟨makeDangerous_safety _ _, ?_, makeDangerous_filename _ _⟩
  intro hmem
  rw [List.mem_filter] at hmem
  simp at hmem

/-- A record whose (source) filename carries the U+202E override. -/
def rloRec : FileRec :=
  { dummyRec with filename := rlo :: cs "a.txt", dst_path := cs "dst/" ++ rlo :: cs "a.txt" }

theorem claim_c6_witness :
    (checkFilename rloRec).safety_category = some SafetyCat.dangerous ∧
    rlo ∉ (checkFilename rloRec).dst_path ∧
    (checkFilename rloRec).filename = rloRec.filename :=
  claim_c6 rloRec (by decide)

/-- A record for a jpeg whose destination sidecar path is occupied. -/
def metaRec : FileRec :=
  { dummyRec with src_path := cs "s/f.jpg", dst_path := cs "d/f.jpg" }

/-- The filesystem for the C8 counterexample: a file already exists at the
destination sidecar path (but not at the source-side path the code
checks). -/
def metaFs : List Str := [cs "d/f.jpg.metadata.txt"]

/-- C8, counterexample: a file already exists at the exact path where the
sidecar is to be created (`dst_path + '.metadata.txt'`), yet
`create_metadata_file` reports success and records no error — the source
tests `src_path + ext` instead of the destination sidecar path. -/
theorem claim_c8_counterexample :
    (metaRec.dst_path ++ cs ".metadata.txt") ∈ metaFs ∧
    (createMetadataFile metaFs (cs ".metadata.txt") metaRec).2.2
      = some (cs "d/f.jpg.metadata.txt") ∧
    (createMetadataFile metaFs (cs ".metadata.txt") metaRec).1.errors = metaRec.errors := by
  decide

/-- C8, amended: `create_metadata_file` records an error and reports
failure if and only if a file already exists at `src_path + ext` (the
source-side sibling of the sidecar name); otherwise it succeeds and
returns the sidecar path `dst_path + ext`. -/
theorem claim_c8 (fs : List Str) (ext : Str) (r : FileRec) :
    ((r.src_path ++ checkLeadingDot ext) ∈ fs ↔
      ((createMetadataFile fs ext r).2.2 = none ∧
        (createMetadataFile fs ext r).1.errors = r.errors + 1)) ∧
    ((r.src_path ++ checkLeadingDot ext) ∉ fs →
      (createMetadataFile fs ext r).2.2 = some (r.dst_path ++ checkLeadingDot ext) ∧
      (createMetadataFile fs ext r).1.errors = r.errors) := by
  unfold createMetadataFile
  dsimp only
  by_cases h : (r.src_path ++ checkLeadingDot ext) ∈ fs
  · rw [if_pos h]
    simp [h, addErr]
  · rw [if_neg h]
    simp [h]

theorem claim_c8_witness :
    ((metaRec.src_path ++ checkLeadingDot (cs ".metadata.txt")) ∉ metaFs) ∧
    (createMetadataFile metaFs (cs ".metadata.txt") metaRec).2.2
      = some (metaRec.dst_path ++ checkLeadingDot (cs ".metadata.txt")) ∧
    (createMetadataFile metaFs (cs ".metadata.txt") metaRec).1.errors = metaRec.errors :=
  ⟨by decide,
   (claim_c8 metaFs (cs ".metadata.txt") metaRec).2 (by decide)⟩

/-- C9: `process_archive` is balanced on the recursion-depth counter — any
invocation that returns (bomb-flagged or expanded) restores the counter to
its value before the call, and a complete walk that starts at depth 0 ends
at depth 0. -/
theorem claim_c9 :
    (∀ (db : MimeDB) (fuel : Nat) (st : GState) (r : FileRec) (ex : List Entry)
        (b : Bool) (st2 : GState) (r2 : FileRec),
      processArchive db fuel st r ex b = .ok (st2, r2) → st2.depth = st.depth) ∧
    (∀ (db : MimeDB) (fuel : Nat) (dstDir : Str) (st : GState) (l : List Entry)
        (st2 : GState),
      st.depth = 0 → processList db fuel dstDir st l = .ok st2 → st2.depth = 0) := by
  constructor
  · intro db fuel st r ex b st2 r2 h
    exact processArchiveG_depth _
      (fun d s ll s2 hh => processList_depth db fuel d s ll s2 hh) _ _ _ _ _ _ h
  · intro db fuel dstDir st l st2 h0 h
    rw [processList_depth db fuel dstDir st l st2 h, h0]

/-- The state of a walk one level inside an archive. -/
def stDepth1 : GState := { st0 with depth := 1 }

theorem claim_c9_witness :
    processArchive stdDb 1 stDepth1 wrecArch [] true
      = .ok (stDepth1, makeDangerous (cs "Archive bomb") wrecArch) ∧
    stDepth1.depth = stDepth1.depth :=
  ⟨by decide,
   claim_c9.1 stdDb 1 stDepth1 wrecArch [] true stDepth1
     (makeDangerous (cs "Archive bomb") wrecArch) (by decide)⟩

/-- The record `FileBase.__init__` produces for a non-symlink file named
`name` whose libmagic verdict `s` contains no slash. -/
def bareMimeRec (name dst s : Str) : FileRec :=
  { src_path := name, dst_path := dst, filename := name,
    extension := splitExtLow name, prop_extension := splitExtLow name,
    mimetype := some s, main_type := none, sub_type := none,
    safety_category := none, description_string := [], errors := 0,
    symlink := none, copied := false, should_copy := true,
    is_recursive := false, tempdir_path := dst ++ cs "_temp",
    metadata_file_path := none, user_metadata := none }

/-- C10: a sniffed mimetype string without a `/` separator (libmagic's bare
`data`) yields `main_type = sub_type = None`, `has_mimetype` false, and the
presence checks mark the file dangerous with reason `'File has no
mimetype'` even though a mimetype string was determined. -/
theorem claim_c10 (name dst s : Str) (hs : '/' ∉ s) :
    ∃ r, mkFileRec name (some s) none dst = .ok r ∧
      r.mimetype = some s ∧ r.main_type = none ∧ r.sub_type = none ∧
      hasMimetypeB r = false ∧
      (checkDangerous r).safety_category = some SafetyCat.dangerous ∧
      cs "File has no mimetype" ∈ (checkDangerous r).description_string := by
  have hsplit : splitSubtypes s = .ok (none, none) := by
    unfold splitSubtypes
    rw [if_neg]
    simpa using hs
  refine ⟨bareMimeRec name dst s, ?_, rfl, rfl, rfl, rfl, ?_, ?_⟩
  · unfold mkFileRec bareMimeRec
    dsimp only
    rw [hsplit]
  · exact (checkDangerous_noMimetype (bareMimeRec name dst s) rfl).1
  · exact (checkDangerous_noMimetype (bareMimeRec name dst s) rfl).2

/-- The record built for a file libmagic classifies as plain `data`. -/
def dataRec : FileRec :=
  match mkFileRec (cs "f") (some (cs "data")) none (cs "d/f") with
  | .ok r => r
  | .error _ => dummyRec

theorem claim_c10_witness :
    (checkDangerous dataRec).safety_category = some SafetyCat.dangerous ∧
    cs "File has no mimetype" ∈ (checkDangerous dataRec).description_string := by
  obtain ⟨r, hr, _, _, _, _, hsafe, hmem⟩ :=
    claim_c10 (cs "f") (cs "d/f") (cs "data") (by decide)
  have hd : dataRec = r := by
    unfold dataRec
    rw [hr]
  rw [hd]
  exact ⟨hsafe, hmem⟩

theorem startsW_append (a b c : Str) (h : startsW a b = true) : startsW a (b ++ c) = true := by
  induction a generalizing b with
  | nil => simp [startsW]
  | cons x xs ih =>
      cases b with
      | nil => simp [startsW] at h
      | cons y ys =>
          simp only [startsW, List.cons_append, Bool.and_eq_true] at h ⊢
          exact ⟨h.1, ih ys h.2⟩

theorem pyJoin_suffix (d n : Str) : ∃ p, pyJoin d n = p ++ n := by
  unfold pyJoin
  split
  · exact ⟨[], rfl⟩
  · split
    · exact ⟨[], rfl⟩
    · split
      · exact ⟨d, rfl⟩
      · exact ⟨d ++ ['/'], by simp⟩

theorem endsW_pyJoin (suf d n : Str) (h : endsW suf n = true) :
    endsW suf (pyJoin d n) = true := by
  obtain ⟨p, hp⟩ := pyJoin_suffix d n
  rw [hp]
  unfold endsW at h ⊢
  rw [List.reverse_append]
  exact startsW_append _ _ _ h

/-- The record `File(...)` builds for a non-symlink plain-text file whose
basename carries extension `.txt`. -/
def plainTxtRec (n d : Str) : FileRec :=
  { src_path := n, dst_path := pyJoin d n, filename := n,
    extension := some (cs ".txt"), prop_extension := some (cs ".txt"),
    mimetype := some (cs "text/plain"), main_type := some (cs "text"),
    sub_type := some (cs "plain"), safety_category := none,
    description_string := [], errors := 0, symlink := none, copied := false,
    should_copy := true, is_recursive := false,
    tempdir_path := pyJoin d n ++ cs "_temp",
    metadata_file_path := none, user_metadata := none }

/-- A plain-text filename hiding a right-to-left override. -/
def rloName : Str := cs "ev" ++ [rlo] ++ cs "il.txt"

/-- The full pipeline on the override-carrying `.txt` file. -/
def runRloTxt : Outcome GState :=
  processFile stdDb 8 (cs "dst") st0 rloName (some (cs "text/plain")) none
    (cs "hi") vNone [] true

/-- C7, counterexample: a file with extension `.txt` and matching detected
mimetype `text/plain` whose filename carries U+202E goes through the full
pipeline with `safety_category = dangerous` (and a renamed destination),
not unset — so the claim as universally stated fails. -/
theorem claim_c7_counterexample :
    splitExtLow rloName = some (cs ".txt") ∧
    recsSummary runRloTxt = some
      [(rloName, some SafetyCat.dangerous, [cs "Filename contains dangerous character"])] := by
  decide

/-- C7, amended: for a plain-text file whose basename ends in the literal
lowercase `.txt`, whose detected mimetype `text/plain` matches the
`mimetypes` database expectations for that name, and whose filename
carries no U+202E override, the full pipeline leaves `safety_category`
unset, leaves the destination path `join(dstDir, name)` and both extension
fields unchanged at `.txt`, and copies the file bytes unchanged to that
destination. -/
theorem claim_c7 (db : MimeDB) (fuel : Nat) (st : GState) (n d content : Str)
    (v : Verdicts) (b : Bool)
    (hext : splitExtLow n = some (cs ".txt"))
    (hend : endsW (cs ".txt") n = true)
    (hrlo : rlo ∉ n)
    (hguess : db.guessType n = some (cs "text/plain"))
    (hgae : cs ".txt" ∈ db.guessAllExtensions (cs "text/plain")) :
    ∃ st2, processFile db fuel d st n (some (cs "text/plain")) none content v [] b
        = .ok st2 ∧
      st2.copied = st.copied ++ [(pyJoin d n, content)] ∧
      ∃ rfin, st2.recs = st.recs ++ [rfin] ∧
        rfin.safety_category = none ∧
        rfin.dst_path = pyJoin d n ∧
        rfin.extension = some (cs ".txt") ∧
        rfin.prop_extension = some (cs ".txt") ∧
        rfin.filename = n ∧
        rfin.copied = true := by
  have hmk : mkFileRec n (some (cs "text/plain")) none (pyJoin d n)
      = .ok (plainTxtRec n d) := by
    unfold mkFileRec plainTxtRec
    dsimp only
    rw [hext]
    rfl
  have hcd : checkDangerous (plainTxtRec n d) = plainTxtRec n d := rfl
  have hcf : checkFilename (plainTxtRec n d) = plainTxtRec n d := by
    unfold checkFilename plainTxtRec
    rw [if_neg]
    exact hrlo
  have hce : checkExtension db (plainTxtRec n d) = plainTxtRec n d := by
    unfold checkExtension plainTxtRec
    dsimp only
    rw [hguess]
    rw [if_neg (by
      intro hbad
      rw [Bool.and_eq_true] at hbad
      exact of_decide_eq_true hbad.2 rfl)]
  have hcm : checkMimetype db (plainTxtRec n d) = plainTxtRec n d := by
    unfold checkMimetype plainTxtRec
    dsimp only
    rw [if_neg (by
      intro hbad
      rw [Bool.and_eq_true, Bool.and_eq_true] at hbad
      exact of_decide_eq_true hbad.2 hgae)]
  have hforce : forceExt (cs ".txt")
      { plainTxtRec n d with description_string := [cs "Plain text file"] }
      = { plainTxtRec n d with description_string := [cs "Plain text file"] } := by
    unfold forceExt plainTxtRec
    dsimp only
    rw [show checkLeadingDot (cs ".txt") = cs ".txt" from rfl]
    rw [endsW_pyJoin (cs ".txt") d n hend]
    rw [if_pos rfl, if_pos rfl]
  have hfc : fcheck db v st.fs (plainTxtRec n d)
      = .ok ({ plainTxtRec n d with description_string := [cs "Plain text file"] },
             st.fs) := by
    unfold fcheck
    dsimp only
    rw [hcd, hcf]
    rw [show hasExtensionB (plainTxtRec n d) = true from rfl]
    rw [if_pos rfl]
    rw [hce]
    rw [show hasMimetypeB (plainTxtRec n d) = true from rfl]
    rw [if_pos rfl]
    rw [hcm]
    rw [show isDangerousB (plainTxtRec n d) = false from rfl]
    rw [if_neg (by simp)]
    rw [show (plainTxtRec n d).main_type = some (cs "text") from rfl]
    dsimp only
    rw [if_pos rfl]
    unfold textH
    dsimp only
    rw [show ((plainTxtRec n d).sub_type.getD []) = cs "plain" from rfl]
    rw [show Config.mimesRtf.any (fun mt => hasSub mt (cs "plain")) = false from rfl]
    rw [show Config.mimesOoxml.any (fun mt => hasSub mt (cs "plain")) = false from rfl]
    rw [if_neg (by decide), if_neg (by decide)]
    rw [show addDescription (cs "Plain text file") (plainTxtRec n d)
        = { plainTxtRec n d with description_string := [cs "Plain text file"] } from rfl]
    rw [hforce]
    rfl
  have hrun : processFile db fuel d st n (some (cs "text/plain")) none content v [] b
      = .ok (let rr := { plainTxtRec n d with description_string := [cs "Plain text file"] }
             let rr2 := { rr with copied := true }
             let stc := writeLog (safeCopy st rr content) rr2
             { stc with fs := rmtree stc.fs rr2.tempdir_path,
                        recs := stc.recs ++ [rr2] }) := by
    unfold processFile processFileG
    rw [hmk]
    dsimp only
    rw [hfc]
    rfl
  exact ⟨_, hrun, rfl, _, rfl, rfl, rfl, rfl, rfl, rfl, rfl⟩

theorem claim_c7_witness :
    copiedOf (processFile stdDb 5 (cs "dst") st0 (cs "n.txt") (some (cs "text/plain")) none
      (cs "hello") vNone [] true) = some [(pyJoin (cs "dst") (cs "n.txt"), cs "hello")] := by
  obtain ⟨st2, hrun, hcopied, -⟩ :=
    claim_c7 stdDb 5 st0 (cs "n.txt") (cs "dst") (cs "hello") vNone true
      (by decide) (by decide) (by decide) (by decide) (by decide)
  rw [hrun]
  simp only [copiedOf]
  rw [hcopied]
  rfl

/-- C1, counterexample: running spec scenario B (zip in zip in text file,
`max_recursive_depth=2`) copies nothing — the text file never reaches the
destination — and one processed file is marked dangerous, contradicting
"the text file is copied, and no file is marked dangerous". -/
theorem claim_c1_counterexample :
    copiedOf runScenB = some [] ∧
    (((recsSummary runScenB).getD []).any
      (fun t => t.2.1 = some SafetyCat.dangerous)) = true := by
  decide

/-- C1, amended: with `max_recursive_depth=2` the depth counter reaches the
bound at the archive nested one level inside another, so in scenario B the
outer zip is expanded and logged as `Archive` while the inner zip is
marked dangerous(`Archive bomb`), is never expanded and is not logged; the
contained text file is never extracted or copied, and the depth counter
returns to 0. -/
theorem claim_c1 :
    logOf runScenB
      = some [LogLine.fileLine (cs "a.zip") (cs "a.zip") [cs "Archive"] none false] ∧
    recsSummary runScenB = some
      [(cs "b.zip", some SafetyCat.dangerous, [cs "Archive", cs "Archive bomb"]),
       (cs "a.zip", none, [cs "Archive"])] ∧
    copiedOf runScenB = some [] ∧
    depthOf runScenB = some 0 := by
  decide

/-- C3 (code bug): a legacy-office file whose OLE container fails to parse
makes `_winoffice` run `make_dangerous('Unparsable WinOffice file')` and
then fall through to the unbound local `ole`, raising a `NameError` that
no caller handles — the directory walk terminates early (the harmless text
file queued after it is never processed), instead of containing the parse
failure per the claim. -/
theorem claim_c3 : runBadDoc = Outcome.raise PyError.nameError := by
  decide

/-- C4, counterexample: a symbolic-link entry is fully processed (one
record in the trace) yet zero audit-log lines are written — `should_copy`
is false and `write_log` is reached only from the copy branch or from
archive expansion. -/
theorem claim_c4_counterexample :
    logOf runSlink = some [] ∧
    ((recsSummary runSlink).getD []).length = 1 := by
  decide


theorem addDescription_rec (d : Str) (r : FileRec) :
    (addDescription d r).is_recursive = r.is_recursive := by
  unfold addDescription
  split <;> rfl

theorem addErr_rec (r : FileRec) : (addErr r).is_recursive = r.is_recursive := rfl

theorem makeDangerous_rec (d : Str) (r : FileRec) :
    (makeDangerous d r).is_recursive = r.is_recursive := by
  unfold makeDangerous addDescription
  dsimp only
  repeat' split
  all_goals rfl

theorem makeUnknown_rec (r : FileRec) :
    (makeUnknown r).is_recursive = r.is_recursive := by
  unfold makeUnknown
  dsimp only
  repeat' split
  all_goals rfl

theorem makeBinary_rec (r : FileRec) :
    (makeBinary r).is_recursive = r.is_recursive := by
  unfold makeBinary
  dsimp only
  repeat' split
  all_goals rfl

theorem forceExt_rec (e : Str) (r : FileRec) :
    (forceExt e r).is_recursive = r.is_recursive := by
  unfold forceExt
  dsimp only
  repeat' split
  all_goals rfl

theorem checkDangerous_rec (r : FileRec) :
    (checkDangerous r).is_recursive = r.is_recursive := by
  unfold checkDangerous
  dsimp only
  repeat' split
  all_goals simp [makeDangerous_rec]

theorem checkFilename_rec (r : FileRec) :
    (checkFilename r).is_recursive = r.is_recursive := by
  unfold checkFilename
  split <;> simp [makeDangerous_rec]

theorem checkExtension_rec (db : MimeDB) (r : FileRec) :
    (checkExtension db r).is_recursive = r.is_recursive := by
  unfold checkExtension
  dsimp only
  split <;> simp [makeDangerous_rec]

theorem checkMimetype_rec (db : MimeDB) (r : FileRec) :
    (checkMimetype db r).is_recursive = r.is_recursive := by
  unfold checkMimetype
  dsimp only
  split <;> simp [makeDangerous_rec]

theorem winofficeH_rec (ov : OleV) (r r2 : FileRec)
    (h : winofficeH ov r = .ok r2) : r2.is_recursive = r.is_recursive := by
  unfold winofficeH at h
  split at h
  · split at h
    · cases h
    · cases h
      rw [addDescription_rec]
      repeat' split
      all_goals simp [makeDangerous_rec]
  · cases h
    rw [addDescription_rec]
    repeat' split
    all_goals simp [makeDangerous_rec, addDescription_rec]

theorem ooxmlH_rec (vx : Option OoxmlV) (r : FileRec) :
    (ooxmlH vx r).is_recursive = r.is_recursive := by
  unfold ooxmlH
  split
  · simp [makeDangerous_rec]
  · dsimp only
    repeat' split
    all_goals simp [makeDangerous_rec]

theorem foldl_rec_preserve (step : FileRec → Str → FileRec)
    (hstep : ∀ a f, (step a f).is_recursive = a.is_recursive) :
    ∀ (names : List Str) (acc : FileRec),
      (names.foldl step acc).is_recursive = acc.is_recursive := by
  intro names
  induction names with
  | nil => intro acc; rfl
  | cons x xs ih =>
      intro acc
      rw [List.foldl_cons, ih, hstep]

theorem libreofficeH_rec (zl : Option (List Str)) (r r2 : FileRec)
    (h : libreofficeH zl r = .ok r2) : r2.is_recursive = r.is_recursive := by
  unfold libreofficeH at h
  split at h
  · cases h
  · cases h
    dsimp only
    split
    · exact foldl_rec_preserve _
        (fun a f => by split <;> simp [makeDangerous_rec]) _ _
    · rw [addDescription_rec]
      exact foldl_rec_preserve _
        (fun a f => by split <;> simp [makeDangerous_rec]) _ _

theorem pdfH_rec (vx : Option PdfV) (r r2 : FileRec)
    (h : pdfH vx r = .ok r2) : r2.is_recursive = r.is_recursive := by
  unfold pdfH at h
  split at h
  · cases h
  · cases h
    repeat' split
    all_goals simp [makeDangerous_rec, addDescription_rec]

theorem textH_rec (v : Verdicts) (r : FileRec) :
    (textH v r).is_recursive = r.is_recursive := by
  unfold textH
  dsimp only
  repeat' split
  all_goals simp [forceExt_rec, addDescription_rec, ooxmlH_rec]

theorem executablesH_rec (r : FileRec) :
    (executablesH r).is_recursive = r.is_recursive := by
  unfold executablesH
  simp [makeDangerous_rec]

theorem binaryAppH_rec (r : FileRec) :
    (binaryAppH r).is_recursive = r.is_recursive := by
  unfold binaryAppH
  simp [makeBinary_rec, addDescription_rec]

theorem unknownAppH_rec (r : FileRec) :
    (unknownAppH r).is_recursive = r.is_recursive := by
  unfold unknownAppH
  simp [makeUnknown_rec, addDescription_rec]

theorem messageH_rec (r : FileRec) :
    (messageH r).is_recursive = r.is_recursive := by
  unfold messageH
  simp [makeDangerous_rec]

theorem modelH_rec (r : FileRec) :
    (modelH r).is_recursive = r.is_recursive := by
  unfold modelH
  simp [makeDangerous_rec]

theorem audioH_rec (r : FileRec) :
    (audioH r).is_recursive = r.is_recursive := by
  unfold audioH mediaProcessing
  simp [addDescription_rec]

theorem videoH_rec (r : FileRec) :
    (videoH r).is_recursive = r.is_recursive := by
  unfold videoH mediaProcessing
  simp [addDescription_rec]

theorem inodeH_rec (r : FileRec) :
    (inodeH r).is_recursive = r.is_recursive := by
  unfold inodeH
  dsimp only
  split <;> simp [addDescription_rec]

theorem unknownH_rec (r : FileRec) :
    (unknownH r).is_recursive = r.is_recursive := by
  unfold unknownH
  simp [addDescription_rec]

theorem exampleH_rec (r : FileRec) :
    (exampleH r).is_recursive = r.is_recursive := by
  unfold exampleH
  simp [addDescription_rec]

theorem multipartH_rec (r : FileRec) :
    (multipartH r).is_recursive = r.is_recursive := by
  unfold multipartH
  simp [addDescription_rec]

theorem archiveH_flags (r : FileRec) :
    (archiveH r).is_recursive = true ∧ (archiveH r).should_copy = false := by
  unfold archiveH
  exact ⟨rfl, rfl⟩

theorem createMetadataFile_rec (fs : List Str) (ext : Str) (r : FileRec) :
    ((createMetadataFile fs ext r).1).is_recursive = r.is_recursive := by
  unfold createMetadataFile
  dsimp only
  split <;> rfl

theorem extractMetadata_rec (v : Verdicts) (fs : List Str) (r : FileRec) :
    ((extractMetadata v fs r).1).is_recursive = r.is_recursive := by
  unfold extractMetadata
  dsimp only
  repeat' split
  all_goals simp [createMetadataFile_rec, addErr_rec, makeDangerous_rec]

theorem imageH_rec (v : Verdicts) (fs : List Str) (r : FileRec) :
    ((imageH v fs r).1).is_recursive = r.is_recursive := by
  unfold imageH
  dsimp only
  repeat' split
  all_goals simp [extractMetadata_rec, addErr_rec, makeDangerous_rec, addDescription_rec]

theorem applicationH_flags (v : Verdicts) (fs : List Str) (r r2 : FileRec)
    (fs2 : List Str) (h : applicationH v fs r = .ok (r2, fs2))
    (hr : r.is_recursive = false) :
    r2.is_recursive = true → r2.should_copy = false := by
  intro hrec
  unfold applicationH at h
  dsimp only at h
  cases hfind : appSubtypeMethods.find? (fun p => hasSub p.1 (r.sub_type.getD [])) with
  | none =>
      rw [hfind] at h
      dsimp only at h
      cases h
      rw [unknownAppH_rec, hr] at hrec
      cases hrec
  | some pm =>
      obtain ⟨k, m⟩ := pm
      cases m
      all_goals rw [hfind] at h
      all_goals dsimp only at h
      all_goals repeat' split at h
      all_goals cases h
      all_goals
        first
          | exact (archiveH_flags r).2
          | (rename_i hw
             first
               | rw [winofficeH_rec _ _ _ hw, hr] at hrec
               | rw [libreofficeH_rec _ _ _ hw, hr] at hrec
               | rw [pdfH_rec _ _ _ hw, hr] at hrec
             cases hrec)
          | (rw [ooxmlH_rec, hr] at hrec; cases hrec)
          | (rw [textH_rec, hr] at hrec; cases hrec)
          | (rw [executablesH_rec, hr] at hrec; cases hrec)
          | (rw [binaryAppH_rec, hr] at hrec; cases hrec)

theorem mkFileRec_flags (name : Str) (mime : Option Str) (link : Option Str)
    (dst : Str) (r0 : FileRec) (h : mkFileRec name mime link dst = .ok r0) :
    r0.is_recursive = false := by
  unfold mkFileRec at h
  dsimp only at h
  repeat' split at h
  all_goals (cases h <;> rfl)

set_option maxHeartbeats 2000000 in
/-- Invariant of `File.check`: `is_recursive` starts false and only
`File._archive` sets it, and `_archive` simultaneously clears
`should_copy`, so a checked record marked for recursion is never marked
for copying. -/
theorem fcheck_flags (db : MimeDB) (v : Verdicts) (fs : List Str)
    (r0 r1 : FileRec) (fs1 : List Str) (h : fcheck db v fs r0 = .ok (r1, fs1))
    (h0 : r0.is_recursive = false) :
    r1.is_recursive = true → r1.should_copy = false := by
  intro hrec
  unfold fcheck at h
  dsimp only at h
  set Y := checkFilename (checkDangerous r0) with hYd
  have hY : Y.is_recursive = false := by
    rw [hYd, checkFilename_rec, checkDangerous_rec, h0]
  set X := if hasExtensionB Y = true then checkExtension db Y else Y with hXd
  have hX : X.is_recursive = false := by
    rw [hXd]
    split
    · rw [checkExtension_rec]; exact hY
    · exact hY
  set Z := if hasMimetypeB X = true then checkMimetype db X else X with hZd
  have hZ : Z.is_recursive = false := by
    rw [hZd]
    split
    · rw [checkMimetype_rec]; exact hX
    · exact hX
  clear hYd hXd hZd
  repeat' split at h
  all_goals
    first
      | exact applicationH_flags v fs Z r1 fs1 h hZ hrec
      | (cases h
         simp only [textH_rec, audioH_rec, videoH_rec, exampleH_rec, messageH_rec,
           modelH_rec, multipartH_rec, inodeH_rec, unknownH_rec, hZ] at hrec
         exact Bool.noConfusion hrec)
      | (injection h with h2
         have h3 := congrArg Prod.fst h2
         dsimp only at h3
         rw [← h3] at hrec
         simp only [imageH_rec, hZ] at hrec
         exact Bool.noConfusion hrec)

theorem finishFile_log (st : GState) (r : FileRec) (st2 : GState)
    (heq : finishFile st r = .ok st2) : st2.log = st.log := by
  unfold finishFile at heq
  cases heq
  rfl

theorem processArchiveG_log
    (recur : Str → GState → List Entry → Outcome GState)
    (hrec : ∀ d s l s2, recur d s l = .ok s2 → ∃ t, s2.log = s.log ++ t)
    (st : GState) (r : FileRec) (ex : List Entry) (b : Bool) (st2 : GState) (r2 : FileRec)
    (heq : processArchiveG recur st r ex b = .ok (st2, r2)) :
    ∃ t, st2.log = st.log ++ t := by
  unfold processArchiveG at heq
  dsimp only at heq
  split at heq
  · cases heq
    exact ⟨[], by simp⟩
  · split at heq
    · rename_i s3 hs3
      cases heq
      obtain ⟨t, ht⟩ := hrec _ _ _ _ hs3
      simp only [writeLog, List.append_assoc, List.singleton_append] at ht
      exact ⟨_, ht⟩
    · cases heq
    · cases heq

theorem processFileG_log
    (db : MimeDB) (recur : Str → GState → List Entry → Outcome GState)
    (hrec : ∀ d s l s2, recur d s l = .ok s2 → ∃ t, s2.log = s.log ++ t)
    (dstDir : Str) (st : GState) (name : Str) (mime : Option Str) (link : Option Str)
    (content : Str) (v : Verdicts) (ex : List Entry) (b : Bool) (st2 : GState)
    (heq : processFileG db recur dstDir st name mime link content v ex b = .ok st2) :
    ∃ t, st2.log = st.log ++ t := by
  unfold processFileG at heq
  split at heq
  · cases heq
  · split at heq
    · cases heq
    · rename_i r1 fs1 hfc
      dsimp only at heq
      by_cases hc : r1.should_copy = true
      · simp only [if_pos hc] at heq
        split at heq
        · split at heq
          · rename_i st3 r3 harch
            obtain ⟨t, ht⟩ := processArchiveG_log recur hrec _ _ _ _ _ _ harch
            rw [finishFile_log _ _ _ heq, ht]
            simp only [writeLog, List.append_assoc, List.singleton_append]
            exact ⟨_, rfl⟩
          · cases heq
          · cases heq
        · rw [finishFile_log _ _ _ heq]
          simp only [writeLog, List.append_assoc, List.singleton_append]
          exact ⟨_, rfl⟩
      · simp only [if_neg hc] at heq
        split at heq
        · split at heq
          · rename_i st3 r3 harch
            obtain ⟨t, ht⟩ := processArchiveG_log recur hrec _ _ _ _ _ _ harch
            rw [finishFile_log _ _ _ heq, ht]
            exact ⟨t, rfl⟩
          · cases heq
          · cases heq
        · rw [finishFile_log _ _ _ heq]
          exact ⟨[], by simp⟩

theorem processList_log (db : MimeDB) :
    ∀ (fuel : Nat) (dstDir : Str) (st : GState) (l : List Entry) (st2 : GState),
      processList db fuel dstDir st l = .ok st2 → ∃ t, st2.log = st.log ++ t := by
  intro fuel
  induction fuel with
  | zero =>
      intro dstDir st l st2 h
      cases l <;> cases h
  | succ n ih =>
      intro dstDir st l st2 h
      match l with
      | [] =>
          simp only [processList] at h
          cases h
          exact ⟨[], by simp⟩
      | Entry.dir name children :: rest =>
          simp only [processList] at h
          split at h
          · rename_i s3 h3
            obtain ⟨t1, ht1⟩ := ih _ _ _ _ h3
            obtain ⟨t2, ht2⟩ := ih _ _ _ _ h
            refine ⟨LogLine.dirLine name :: (t1 ++ t2), ?_⟩
            rw [ht2, ht1]
            simp
          · cases h
          · cases h
      | Entry.file name mime link content v ex exitOk :: rest =>
          simp only [processList] at h
          split at h
          · rename_i s3 h3
            obtain ⟨t1, ht1⟩ := processFileG_log db _
              (fun d s ll s2 hh => ih d s ll s2 hh) _ _ _ _ _ _ _ _ _ _ h3
            obtain ⟨t2, ht2⟩ := ih _ _ _ _ h
            refine ⟨t1 ++ t2, ?_⟩
            rw [ht2, ht1]
            simp
          · cases h
          · cases h

/-- C4, amended: per processed file entry, the audit log gains exactly one
line when `should_copy` holds after the check, no line at all for
`should_copy`-false non-archives (inodes/symlinks, unknown maintypes and
the other discarded classes) and for archives flagged as bombs at the
depth bound, and exactly one line for the entry itself — written before
its extracted children's lines — when the entry is an archive expanded
within the bound; the entry is fully processed in every case. -/
theorem claim_c4 (db : MimeDB) (fuel : Nat) (dstDir : Str) (st : GState) (name : Str)
    (mime : Option Str) (link : Option Str) (content : Str) (v : Verdicts)
    (ex : List Entry) (b : Bool) (r0 r1 : FileRec) (fs1 : List Str)
    (hmk : mkFileRec name mime link (pyJoin dstDir name) = .ok r0)
    (hfc : fcheck db v st.fs r0 = .ok (r1, fs1)) :
    (r1.is_recursive = false →
      ∃ st2, processFile db fuel dstDir st name mime link content v ex b = .ok st2 ∧
        st2.log.length = st.log.length + (if r1.should_copy then 1 else 0) ∧
        st2.recs.length = st.recs.length + 1) ∧
    (r1.is_recursive = true → st.maxDepth ≤ st.depth + 1 →
      ∃ st2, processFile db fuel dstDir st name mime link content v ex b = .ok st2 ∧
        st2.log = st.log ∧
        st2.recs.length = st.recs.length + 1) ∧
    (r1.is_recursive = true → st.depth + 1 < st.maxDepth →
      ∀ st2, processFile db fuel dstDir st name mime link content v ex b = .ok st2 →
        ∃ tail, st2.log = st.log ++
          LogLine.fileLine r1.src_path r1.filename r1.description_string
            r1.safety_category false :: tail) := by
  have h0 : r0.is_recursive = false := mkFileRec_flags _ _ _ _ _ hmk
  refine ⟨?_, ?_, ?_⟩
  · intro hnr
    unfold processFile processFileG
    rw [hmk]
    dsimp only
    rw [hfc]
    dsimp only
    by_cases hc : r1.should_copy = true
    · simp only [if_pos hc]
      rw [if_neg (by simp [hnr])]
      unfold finishFile
      dsimp only
      refine ⟨_, rfl, ?_, ?_⟩
      · simp [writeLog, safeCopy, hc]
      · simp [writeLog, safeCopy]
    · simp only [if_neg hc]
      rw [if_neg (by simp [hnr])]
      unfold finishFile
      dsimp only
      refine ⟨_, rfl, ?_, ?_⟩
      · simp [hc]
      · simp
  · intro hrec hb
    have hsc : r1.should_copy = false := by
      have := fcheck_flags db v st.fs r0 r1 fs1 hfc h0 hrec
      exact this
    have hc2 : ¬(r1.should_copy = true) := by simp [hsc]
    unfold processFile processFileG
    rw [hmk]
    dsimp only
    rw [hfc]
    dsimp only
    simp only [if_neg hc2]
    rw [if_pos hrec]
    have harch : processArchiveG (fun d s l => processList db fuel d s l)
        { st with fs := fs1 } r1 ex b
        = .ok ({ st with fs := fs1, depth := st.depth + 1 - 1 },
               makeDangerous (cs "Archive bomb") r1) := by
      unfold processArchiveG
      dsimp only
      rw [if_pos (show st.maxDepth ≤ st.depth + 1 from hb)]
    rw [harch]
    dsimp only
    unfold finishFile
    dsimp only
    refine ⟨_, rfl, rfl, ?_⟩
    simp
  · intro hrec hlt st2 hst2
    have hsc : r1.should_copy = false := fcheck_flags db v st.fs r0 r1 fs1 hfc h0 hrec
    have hc2 : ¬(r1.should_copy = true) := by simp [hsc]
    unfold processFile processFileG at hst2
    rw [hmk] at hst2
    dsimp only at hst2
    rw [hfc] at hst2
    dsimp only at hst2
    simp only [if_neg hc2] at hst2
    rw [if_pos hrec] at hst2
    split at hst2
    · rename_i st3 r3 harch
      unfold processArchiveG at harch
      dsimp only at harch
      rw [if_neg (show ¬(st.maxDepth ≤ st.depth + 1) by omega)] at harch
      split at harch
      · rename_i s4 hs4
        cases harch
        obtain ⟨t, ht⟩ := processList_log db fuel _ _ _ _ hs4
        refine ⟨t, ?_⟩
        rw [finishFile_log _ _ _ hst2]
        dsimp only
        rw [ht]
        simp [writeLog, hrec]
      · cases harch
      · cases harch
    · cases hst2
    · cases hst2

/-- The record `File(...)` builds for the symlink entry. -/
def slinkRec0 : FileRec :=
  match mkFileRec (cs "s.link") none (some (cs "target")) (pyJoin (cs "dst") (cs "s.link")) with
  | .ok r => r
  | .error _ => dummyRec

/-- The symlink record after `File.check`. -/
def slinkRec1 : FileRec :=
  match fcheck stdDb vNone st0.fs slinkRec0 with
  | .ok (r, _) => r
  | .error _ => dummyRec

theorem claim_c4_witness :
    logOf (processFile stdDb 8 (cs "dst") st0 (cs "s.link") none (some (cs "target"))
      (cs "") vNone [] true) = some [] := by
  obtain ⟨st2, hrun, hlen, -⟩ :=
    (claim_c4 stdDb 8 (cs "dst") st0 (cs "s.link") none (some (cs "target")) (cs "")
      vNone [] true slinkRec0 slinkRec1 [] (by rfl) (by rfl)).1 (by rfl)
  rw [hrun]
  simp only [logOf]
  have h0 : st2.log.length = 0 := by
    rw [hlen]
    decide
  rw [List.length_eq_zero] at h0
  rw [h0]
